import Mathlib

/-!
# arcd: pruning scheduler and startup sequence

A shallow embedding of `arcd/main.go`: the scheduler loop `arcScheduler`
(one sleep, one sweep per iteration) and the startup sequence `main`
(flags, configuration, database setup, export/import, scheduler start,
seeding, route registration).

The packages `models`, `config`, `log`, `app`, `middlewares`, `controllers`
and the gin router are called by `main.go` but are not part of it.  Their
functions are taken as parameters (`Models`, `Env`), every call is recorded
as an event of a trace, and the state of the repository is passed explicitly.
-/

namespace Arcd

/-! ## Logging -/

/-- Log levels, one per logging function of the log package that main.go
calls: Debugf, Infof, Warningf, Errorf and Fatal. -/
inductive Level
  | DEBUG
  | INFO
  | WARNING
  | ERROR
  | FATAL
deriving DecidableEq, Repr

/-! ## Records and the repository interface -/

/-- The record fields read by arcScheduler (ID, Title, ExpiredAt), together
with the back-reference to the owning store.  ExpiredAt is a point in time in
seconds; none stands for a record that never expires. -/
structure Record where
  ID : Nat
  StoreID : Nat
  Title : String
  ExpiredAt : Option Int
deriving DecidableEq, Repr

/-- The three functions of the models package called by arcScheduler, over a
repository state σ and an error type ε.  CountExpired returns
(expired, prunable) or an error, PrunableRecords the records to prune or an
error; both are queries and only read the state.  Delete returns its error
(none for a nil error) and the state it leaves behind. -/
structure Models (σ ε : Type) where
  CountExpired : σ → Except ε (Int × Int)
  PrunableRecords : σ → Except ε (List Record)
  Delete : Record → σ → Option ε × σ

/-- The messages arcScheduler logs, one constructor per format string, with
the arguments of the format. -/
inductive Msg (ε : Type)
  | started (period : Int)
  | countError (err : ε)
  | noPrunable (expired : Int)
  | found (prunable expired : Int)
  | queryError (err : ε)
  | pruning (ID : Nat) (Title : String) (ExpiredAt : Option Int)
  | deleteError (ID : Nat) (err : ε)
deriving DecidableEq, Repr

/-- What arcScheduler does that is visible outside of it: sleeping, calling
the models package, logging. -/
inductive Event (ε : Type)
  | Sleep (d : Int)
  | CountExpired
  | PrunableRecords
  | Delete (record : Record)
  | Log (level : Level) (msg : Msg ε)
deriving DecidableEq, Repr

/-- How the body of the for loop hands control back: next for a continue
statement or the end of the body, stop for leaving the loop or the process. -/
inductive Flow
  | next
  | stop
deriving DecidableEq, Repr

/-- Outcome of one execution of the loop body. -/
structure Tick (σ ε : Type) where
  flow : Flow
  trace : List (Event ε)
  state : σ

/-! ## time.Duration -/

/-- Two's complement wrap of an integer into the int64 range. -/
def wrapInt64 (x : Int) : Int :=
  (x + 2 ^ 63) % 2 ^ 64 - 2 ^ 63

/-- The constant time.Second, in nanoseconds. -/
def Second : Int := 1000000000

/-- The period computed at the top of arcScheduler:
time.Duration(config.Conf.Scheduler.Period) * time.Second, an int64 count of
nanoseconds. -/
def schedulerPeriod (Period : Int) : Int :=
  wrapInt64 (wrapInt64 Period * Second)

/-! ## arcScheduler -/

variable {σ ε : Type}

/-- The range loop over the fetched records (main.go lines 96 to 101): a
warning, then Delete, then an error entry when Delete returned an error. -/
def pruneRecords (M : Models σ ε) : List Record → σ → List (Event ε) × σ
  | [], s => ([], s)
  | record :: rest, s =>
    let out := M.Delete record s
    let tail := pruneRecords M rest out.2
    (Event.Log Level.WARNING (Msg.pruning record.ID record.Title record.ExpiredAt) ::
      Event.Delete record ::
      ((match out.1 with
        | some err => [Event.Log Level.ERROR (Msg.deleteError record.ID err)]
        | none => []) ++ tail.1),
     tail.2)

/-- The body of the for loop of arcScheduler after the sleep (main.go lines
78 to 101). -/
def tick (M : Models σ ε) (s : σ) : Tick σ ε :=
  match M.CountExpired s with
  | Except.error err =>
    ⟨Flow.next, [Event.CountExpired, Event.Log Level.ERROR (Msg.countError err)], s⟩
  | Except.ok (expired, prunable) =>
    if expired = 0 then
      ⟨Flow.next, [Event.CountExpired], s⟩
    else if prunable ≤ 0 then
      ⟨Flow.next, [Event.CountExpired, Event.Log Level.DEBUG (Msg.noPrunable expired)], s⟩
    else
      match M.PrunableRecords s with
      | Except.error err =>
        ⟨Flow.next,
         [Event.CountExpired, Event.Log Level.INFO (Msg.found prunable expired),
          Event.PrunableRecords, Event.Log Level.ERROR (Msg.queryError err)], s⟩
      | Except.ok records =>
        let out := pruneRecords M records s
        ⟨Flow.next,
         Event.CountExpired :: Event.Log Level.INFO (Msg.found prunable expired) ::
           Event.PrunableRecords :: out.1, out.2⟩

/-- The for loop of arcScheduler, cut after a number of iterations: each
iteration sleeps for the period and runs the body; the loop goes on while the
body hands control back with next. -/
def schedulerLoop (M : Models σ ε) (period : Int) : Nat → σ → List (Event ε) × σ
  | 0, s => ([], s)
  | n + 1, s =>
    let out := tick M s
    match out.flow with
    | Flow.next =>
      let rest := schedulerLoop M period n out.state
      (Event.Sleep period :: (out.trace ++ rest.1), rest.2)
    | Flow.stop => (Event.Sleep period :: out.trace, out.state)

/-- The function arcScheduler, observed for a number of iterations of its
loop: the period is computed from the configured one, the start is logged,
then the loop runs. -/
def arcScheduler (M : Models σ ε) (Period : Int) (iterations : Nat) (s : σ) :
    List (Event ε) × σ :=
  let period := schedulerPeriod Period
  let out := schedulerLoop M period iterations s
  (Event.Log Level.INFO (Msg.started period) :: out.1, out.2)

/-! ## Observations on traces -/

/-- The records on which Delete was called, in call order. -/
def deleteCalls : List (Event ε) → List Record
  | [] => []
  | Event.Delete record :: rest => record :: deleteCalls rest
  | _ :: rest => deleteCalls rest

/-- The number of calls of PrunableRecords. -/
def fetchCalls : List (Event ε) → Nat
  | [] => 0
  | Event.PrunableRecords :: rest => fetchCalls rest + 1
  | _ :: rest => fetchCalls rest

/-- The messages logged at a given level, in order. -/
def logged (level : Level) : List (Event ε) → List (Msg ε)
  | [] => []
  | Event.Log l msg :: rest =>
    if l = level then msg :: logged level rest else logged level rest
  | _ :: rest => logged level rest

/-- The state left by calling Delete on each record of a list in turn. -/
def deleteAll (M : Models σ ε) : List Record → σ → σ
  | [], s => s
  | record :: rest, s => deleteAll M rest (M.Delete record s).2

/-- The error entries of the range loop: one per record whose Delete
returned an error, in order. -/
def deleteErrors (M : Models σ ε) : List Record → σ → List (Msg ε)
  | [], _ => []
  | record :: rest, s =>
    (match (M.Delete record s).1 with
     | some err => [Msg.deleteError record.ID err]
     | none => []) ++ deleteErrors M rest (M.Delete record s).2

/-! ## A repository in memory -/

/-- Modelled from the spec: the error taxonomy of the repository (section 7);
the models package that defines the errors is not part of main.go. -/
inductive RepoError
  | NotFound
  | ValidationError
  | StorageError
  | MalformedData
deriving DecidableEq, Repr

/-- Modelled from the spec: a store (section 3), reduced to its identity and
title; the models package is not part of main.go. -/
structure Store where
  ID : Nat
  Title : String
deriving DecidableEq, Repr

/-- Modelled from the spec: the persisted state, the stores and the records,
with the current time; faults lists the ids of the records on which the
persistence layer fails a deletion (a StorageError). -/
structure Repo where
  now : Int
  stores : List Store
  records : List Record
  faults : List Nat
deriving DecidableEq, Repr

/-- Modelled from the spec: isExpired(record, now), section 4.2: expiresAt is
present and not after now. -/
def isExpired (record : Record) (now : Int) : Bool :=
  match record.ExpiredAt with
  | none => false
  | some t => decide (t ≤ now)

/-- Modelled from the spec: isPrunable, section 4.2; the baseline design has
no hold mechanism, so a record is prunable exactly when it is expired. -/
def isPrunable (record : Record) (now : Int) : Bool :=
  isExpired record now

/-- Two records denote the same entity: same id within the same store. -/
def sameRecord (a b : Record) : Bool :=
  decide (a.ID = b.ID) && decide (a.StoreID = b.StoreID)

/-- Modelled from the spec: deleteRecord, section 4.1 and section 7: a
persistence failure is a StorageError and leaves the state as it is, an
absent record is NotFound, otherwise the record is removed. -/
def Repo.Delete (record : Record) (repo : Repo) : Option RepoError × Repo :=
  if record.ID ∈ repo.faults then (some RepoError.StorageError, repo)
  else if repo.records.any (sameRecord record) then
    (none, { repo with records := repo.records.filter (fun r => !sameRecord record r) })
  else (some RepoError.NotFound, repo)

/-- Modelled from the spec: the repository of section 4.1 as the three
functions arcScheduler calls: the counts of expired and of prunable records,
the prunable records, and deleteRecord. -/
def memModels : Models Repo RepoError where
  CountExpired := fun repo =>
    Except.ok (((repo.records.filter (fun r => isExpired r repo.now)).length : Int),
               ((repo.records.filter (fun r => isPrunable r repo.now)).length : Int))
  PrunableRecords := fun repo =>
    Except.ok (repo.records.filter (fun r => isPrunable r repo.now))
  Delete := Repo.Delete

/-! ## The router -/

/-- The functions of the controllers package that main registers. -/
inductive Controller
  | Auth
  | GetManifest
  | GetConfig
  | ListStores
  | CreateStore
  | GetStore
  | UpdateStore
  | DeleteStore
  | ListRecords
  | CreateRecord
  | GetRecord
  | GetRecordBuffer
  | UpdateRecord
  | DeleteRecord
deriving DecidableEq, Repr

/-- The handlers main installs: the two middlewares and the controllers. -/
inductive Handler
  | ServeStatic (url path index : String)
  | AuthHandler
  | controller (c : Controller)
deriving DecidableEq, Repr

/-- A router group of gin: the handlers every route of the group starts with,
and the base path of the group. -/
structure RouterGroup where
  Handlers : List Handler
  basePath : String
deriving DecidableEq, Repr

/-- A registered route: method, absolute path and handler chain. -/
structure RouteInfo where
  Method : String
  Path : String
  Handlers : List Handler
deriving DecidableEq, Repr

/-- The gin engine: its own router group and the routes registered so far. -/
structure Engine where
  group : RouterGroup
  routes : List RouteInfo
deriving DecidableEq, Repr

/-- The path of a route or sub-group relative to a group, as gin joins it;
main only passes relative paths that are clean and start with a slash. -/
def joinPaths (absolutePath relativePath : String) : String :=
  if relativePath = "" then absolutePath
  else if absolutePath = "/" then relativePath
  else absolutePath ++ relativePath

/-- The call gin.New(): no handler, base path "/", no route. -/
def Engine.New : Engine := ⟨⟨[], "/"⟩, []⟩

/-- The call r.Use(middleware) on the engine. -/
def Engine.Use (r : Engine) (middleware : Handler) : Engine :=
  { r with group := { r.group with Handlers := r.group.Handlers ++ [middleware] } }

/-- The call r.Group(relativePath): the new group starts from the handlers
the engine has at that moment. -/
def Engine.Group (r : Engine) (relativePath : String) : RouterGroup :=
  ⟨r.group.Handlers, joinPaths r.group.basePath relativePath⟩

/-- The call group.Use(middleware). -/
def RouterGroup.Use (g : RouterGroup) (middleware : Handler) : RouterGroup :=
  { g with Handlers := g.Handlers ++ [middleware] }

/-- A registration group.GET, group.POST, group.PUT or group.DELETE: the
route gets the handlers the group has at that moment, followed by the handler
of the route. -/
def Engine.handle (r : Engine) (g : RouterGroup) (method relativePath : String)
    (c : Controller) : Engine :=
  { r with routes := r.routes ++
      [⟨method, joinPaths g.basePath relativePath, g.Handlers ++ [Handler.controller c]⟩] }

/-- Modelled from the spec: the decision of the Access Gate on a request
(section 6); the middlewares package is not part of main.go. -/
inductive Decision
  | Principal
  | Denied
deriving DecidableEq, Repr

/-- Modelled from the spec: whether a handler aborts the chain of a request.
AuthHandler aborts on a Denied decision (a hard stop, section 6);
ServeStatic aborts when it served a static file; a controller is the last
handler of its chain. -/
def aborts (decision : Decision) (served : Bool) : Handler → Bool
  | Handler.ServeStatic _ _ _ => served
  | Handler.AuthHandler => decide (decision = Decision.Denied)
  | Handler.controller _ => false

/-- The handlers of a chain that run for a request, in order: gin runs them
one after the other until one aborts. -/
def runChain (decision : Decision) (served : Bool) : List Handler → List Handler
  | [] => []
  | h :: rest => h :: (if aborts decision served h then [] else runChain decision served rest)

/-! ## Configuration, flags and environment of main -/

/-- The scheduler section of config.Conf. -/
structure SchedulerConfig where
  Enabled : Bool
  Period : Int
deriving DecidableEq, Repr

/-- The TLS section of config.Conf. -/
structure TLSConfig where
  Enabled : Bool
  Certificate : String
  Key : String
deriving DecidableEq, Repr

/-- The fields of config.Conf that main.go reads. -/
structure Configuration where
  Address : String
  Port : Int
  Scheduler : SchedulerConfig
  TLS : TLSConfig
deriving DecidableEq, Repr

/-- The fields of the web application that main.go reads: Name is what
webapp.String() returns, Path is webapp.Path, Index is webapp.Manifest.Index
and Seeds is webapp.Seeds. -/
structure App where
  Name : String
  Path : String
  Index : String
  Seeds : List Store
deriving DecidableEq, Repr

/-- The command line flags, the package variables of main.go that init binds
to them; the variable export is named export_flag here (export is a keyword
of Lean). -/
structure Flags where
  apppath : String
  conf_file : String
  no_auth : Bool
  debug : Bool
  logfile : String
  no_colors : Bool
  (import_fn : String)
  export_flag : Bool
  store_id : String
  output : String
deriving DecidableEq, Repr

/-- The values of the flags when none is given on the command line. -/
def Flags.defaults : Flags :=
  ⟨".", "", false, false, "", false, "", false, "", "arc.json"⟩

/-- The outcome of every call main makes outside of main.go: the error of
os.Create, the initial config.Conf and the one config.Load leaves, the result
of models.Setup, the errors of models.Export, models.Import and
models.ImportStores, the result of app.Open, the errors of Run and RunTLS. -/
structure Env (ε : Type) where
  Create : String → Option ε
  Conf : Configuration
  Load : String → Except ε Configuration
  Setup : Except ε Bool
  Export : String → String → Option ε
  Import : String → Option ε
  Open : String → Except ε App
  ImportStores : List Store → Option ε
  Run : String → Option ε
  RunTLS : String → String → String → Option ε

/-- The messages main logs. -/
inductive MainMsg (ε : Type)
  | starting (name version : String)
  | failure (err : ε)
  | startingScheduler (Period : Int)
  | schedulerDisabled
  | seeding (stores : Nat)
  | authDisabled
  | serving (app address : String)
deriving DecidableEq, Repr

/-- What main does outside of main.go, in order: assignments to variables of
other packages, calls, log entries and the start of the scheduler
goroutine. -/
inductive MainEvent (ε : Type)
  | SetWithColors (b : Bool)
  | Create (logfile : String)
  | Close
  | SetMinLevel (level : Level)
  | Log (level : Level) (msg : MainMsg ε)
  | Load (conf_file : String)
  | Setup
  | Export (store_id output : String)
  | Import (file : String)
  | GoScheduler
  | SetMode
  | New
  | Open (apppath : String)
  | ImportStores (seeds : List Store)
  | SetApp (webapp : App)
  | Run (address : String)
  | RunTLS (address certificate key : String)
deriving DecidableEq, Repr

/-- How main ends: it returns, or log.Fatal ends the process. -/
inductive Exit
  | returned
  | fatal
deriving DecidableEq, Repr

/-- The observable outcome of main: the trace, config.Conf as the scheduler
goroutine finds it, the routes registered, and how main ended. -/
structure MainResult (ε : Type) where
  trace : List (MainEvent ε)
  Conf : Configuration
  routes : List RouteInfo
  exit : Exit

/-- The constant APP_NAME. -/
def APP_NAME : String := "arcd"

/-- The constant APP_VERSION. -/
def APP_VERSION : String := "0.9.0"

/-! ## main -/

section Main

variable {ε : Type}

/-- The call log.Fatal(err): a fatal entry, then the process ends. -/
def fatal (t : List (MainEvent ε)) (err : ε) (conf : Configuration)
    (routes : List RouteInfo) : MainResult ε :=
  ⟨t ++ [MainEvent.Log Level.FATAL (MainMsg.failure err)], conf, routes, Exit.fatal⟩

/-- A return of main: the deferred log.Output.Close() runs when a log file
was opened. -/
def returned (flags : Flags) (t : List (MainEvent ε)) (conf : Configuration)
    (routes : List RouteInfo) : MainResult ε :=
  ⟨t ++ (if flags.logfile ≠ "" then [MainEvent.Close] else []), conf, routes, Exit.returned⟩

/-- The routes of main (main.go lines 172 to 197): the group /api, POST /auth
on the engine itself, the authentication middleware on the group unless
no_auth is set, then the routes of the group. -/
def register (flags : Flags) (r : Engine) : Engine :=
  let api := r.Group "/api"
  let r := r.handle r.group "POST" "/auth" Controller.Auth
  let api := if flags.no_auth = false then api.Use Handler.AuthHandler else api
  let r := r.handle api "GET" "/manifest" Controller.GetManifest
  let r := r.handle api "GET" "/config" Controller.GetConfig
  let r := r.handle api "GET" "/stores" Controller.ListStores
  let r := r.handle api "POST" "/stores" Controller.CreateStore
  let r := r.handle api "GET" "/store/:id" Controller.GetStore
  let r := r.handle api "PUT" "/store/:id" Controller.UpdateStore
  let r := r.handle api "DELETE" "/store/:id" Controller.DeleteStore
  let r := r.handle api "GET" "/store/:id/records" Controller.ListRecords
  let r := r.handle api "POST" "/store/:id/records" Controller.CreateRecord
  let r := r.handle api "GET" "/store/:id/record/:r_id" Controller.GetRecord
  let r := r.handle api "GET" "/store/:id/record/:r_id/buffer" Controller.GetRecordBuffer
  let r := r.handle api "PUT" "/store/:id/record/:r_id" Controller.UpdateRecord
  r.handle api "DELETE" "/store/:id/record/:r_id" Controller.DeleteRecord

/-- The end of main (main.go lines 172 to 211): the routes, then the server,
with TLS when the configuration enables it. -/
def listen (flags : Flags) (env : Env ε) (conf : Configuration) (webapp : App) (r : Engine)
    (t : List (MainEvent ε)) : MainResult ε :=
  let r := register flags r
  let address := conf.Address ++ ":" ++ toString conf.Port
  let t := t ++ (if flags.no_auth = false then []
                 else [MainEvent.Log Level.WARNING MainMsg.authDisabled]) ++
    [MainEvent.SetApp webapp, MainEvent.Log Level.INFO (MainMsg.serving webapp.Name address)]
  if conf.TLS.Enabled then
    match env.RunTLS address conf.TLS.Certificate conf.TLS.Key with
    | some err =>
      fatal (t ++ [MainEvent.RunTLS address conf.TLS.Certificate conf.TLS.Key]) err conf r.routes
    | none =>
      returned flags (t ++ [MainEvent.RunTLS address conf.TLS.Certificate conf.TLS.Key])
        conf r.routes
  else
    match env.Run address with
    | some err => fatal (t ++ [MainEvent.Run address]) err conf r.routes
    | none => returned flags (t ++ [MainEvent.Run address]) conf r.routes

/-- The function arcLoadApp: app.Open on the path of the web application,
log.Fatal on an error (the error is handed back for main to end on),
otherwise the static middleware is installed on the engine and the web
application returned. -/
def arcLoadApp (flags : Flags) (env : Env ε) (r : Engine) : Except ε (App × Engine) :=
  match env.Open flags.apppath with
  | Except.error err => Except.error err
  | Except.ok webapp =>
    Except.ok (webapp, r.Use (Handler.ServeStatic "/" webapp.Path webapp.Index))

/-- The engine, the web application of arcLoadApp and the seeding (main.go
lines 158 to 170), then the end of main. -/
def serve (flags : Flags) (env : Env ε) (conf : Configuration) (dbIsNew : Bool)
    (t : List (MainEvent ε)) : MainResult ε :=
  let r := Engine.New
  let t := t ++ [MainEvent.SetMode, MainEvent.New, MainEvent.Open flags.apppath]
  match arcLoadApp flags env r with
  | Except.error err => fatal t err conf r.routes
  | Except.ok (webapp, r) =>
    if dbIsNew && decide (webapp.Seeds.length > 0) then
      let t := t ++ [MainEvent.Log Level.WARNING (MainMsg.seeding webapp.Seeds.length),
        MainEvent.ImportStores webapp.Seeds]
      match env.ImportStores webapp.Seeds with
      | some err => fatal t err conf r.routes
      | none => listen flags env conf webapp r t
    else listen flags env conf webapp r t

/-- The database setup, the export and import commands and the start of the
scheduler (main.go lines 135 to 156), then the rest of main. -/
def start (flags : Flags) (env : Env ε) (conf : Configuration)
    (t : List (MainEvent ε)) : MainResult ε :=
  let t := t ++ [MainEvent.Setup]
  match env.Setup with
  | Except.error err => fatal t err conf []
  | Except.ok dbIsNew =>
    if flags.export_flag = true then
      let t := t ++ [MainEvent.Export flags.store_id flags.output]
      match env.Export flags.store_id flags.output with
      | some err => fatal t err conf []
      | none => returned flags t conf []
    else if flags.import_fn ≠ "" then
      let t := t ++ [MainEvent.Import flags.import_fn]
      match env.Import flags.import_fn with
      | some err => fatal t err conf []
      | none => returned flags t conf []
    else if conf.Scheduler.Enabled then
      serve flags env conf dbIsNew
        (t ++ [MainEvent.Log Level.INFO (MainMsg.startingScheduler conf.Scheduler.Period),
               MainEvent.GoScheduler])
    else
      serve flags env conf dbIsNew
        (t ++ [MainEvent.Log Level.WARNING MainMsg.schedulerDisabled])

/-- The log level, the start entry and the configuration file (main.go lines
121 to 133), then the rest of main. -/
def configure (flags : Flags) (env : Env ε) (t : List (MainEvent ε)) : MainResult ε :=
  let t := t ++ [MainEvent.SetMinLevel (if flags.debug = true then Level.DEBUG else Level.INFO),
    MainEvent.Log Level.INFO (MainMsg.starting APP_NAME APP_VERSION)]
  if flags.conf_file ≠ "" then
    let t := t ++ [MainEvent.Load flags.conf_file]
    match env.Load flags.conf_file with
    | Except.error err => fatal t err env.Conf []
    | Except.ok conf => start flags env conf t
  else start flags env env.Conf t

/-- The function main, from the parsed flags. -/
def main (flags : Flags) (env : Env ε) : MainResult ε :=
  let t := [MainEvent.SetWithColors (!flags.no_colors)]
  if flags.logfile ≠ "" then
    let t := t ++ [MainEvent.Create flags.logfile]
    match env.Create flags.logfile with
    | some err => fatal t err env.Conf []
    | none => configure flags env t
  else configure flags env t

end Main

/-! ## Observations on the trace of main -/

/-- The seeds of every call of models.ImportStores, in call order. -/
def seedCalls {ε : Type} : List (MainEvent ε) → List (List Store)
  | [] => []
  | MainEvent.ImportStores seeds :: rest => seeds :: seedCalls rest
  | _ :: rest => seedCalls rest

/-- The number of starts of the scheduler goroutine. -/
def schedulerStarts {ε : Type} : List (MainEvent ε) → Nat
  | [] => 0
  | MainEvent.GoScheduler :: rest => schedulerStarts rest + 1
  | _ :: rest => schedulerStarts rest

/-- The durations of the calls of time.Sleep, in call order. -/
def sleepCalls {ε : Type} : List (Event ε) → List Int
  | [] => []
  | Event.Sleep d :: rest => d :: sleepCalls rest
  | _ :: rest => sleepCalls rest

/-- The pause of one call time.Sleep(d), in nanoseconds: a negative or zero
duration makes Sleep return at once, otherwise the goroutine pauses for d. -/
def sleepPause (d : Int) : Int :=
  if d ≤ 0 then 0 else d

/-- The pauses of the calls of time.Sleep, in call order. -/
def pauses {ε : Type} (trace : List (Event ε)) : List Int :=
  (sleepCalls trace).map sleepPause

/-- The calls of models.Export and models.Import, in call order. -/
def commands {ε : Type} : List (MainEvent ε) → List (MainEvent ε)
  | [] => []
  | MainEvent.Export store_id output :: rest =>
    MainEvent.Export store_id output :: commands rest
  | MainEvent.Import file :: rest => MainEvent.Import file :: commands rest
  | _ :: rest => commands rest

/-! ## The start of main up to the database setup -/

/-- Whether main reaches the code after models.Setup: the log file, when one
is asked for, is created, the configuration file, when one is given, loads,
and models.Setup returns no error. -/
def boots {ε : Type} (flags : Flags) (env : Env ε) : Bool :=
  (decide (flags.logfile = "") || (env.Create flags.logfile).isNone) &&
  (decide (flags.conf_file = "") || (env.Load flags.conf_file).toBool) &&
  env.Setup.toBool

/-- The value of config.Conf after the configuration step of main: the one
config.Load leaves when a configuration file is given and loads, the initial
one otherwise. -/
def loadedConf {ε : Type} (flags : Flags) (env : Env ε) : Configuration :=
  if flags.conf_file ≠ "" then
    match env.Load flags.conf_file with
    | Except.ok conf => conf
    | Except.error _ => env.Conf
  else env.Conf

/-- The trace of main before models.Setup, when nothing fails. -/
def bootTrace {ε : Type} (flags : Flags) : List (MainEvent ε) :=
  [MainEvent.SetWithColors (!flags.no_colors)] ++
  (if flags.logfile ≠ "" then [MainEvent.Create flags.logfile] else []) ++
  [MainEvent.SetMinLevel (if flags.debug = true then Level.DEBUG else Level.INFO),
   MainEvent.Log Level.INFO (MainMsg.starting APP_NAME APP_VERSION)] ++
  (if flags.conf_file ≠ "" then [MainEvent.Load flags.conf_file] else [])

/-! ## Sample repositories and environments -/

/-- A store. -/
def S1 : Store := ⟨1, "S1"⟩

/-- An expired record of S1 (the time of the sample repositories is 100). -/
def R1 : Record := ⟨1, 1, "R1", some 99⟩

/-- A second expired record of S1. -/
def R2 : Record := ⟨2, 1, "R2", some 60⟩

/-- A third expired record of S1. -/
def R3 : Record := ⟨3, 1, "R3", some 70⟩

/-- A record of S1 that expires later. -/
def R4 : Record := ⟨4, 1, "R4", some 500⟩

/-- Store S1 with the single expired record R1. -/
def repoOne : Repo := ⟨100, [S1], [R1], []⟩

/-- Store S1 with three expired records and one that is not expired; the
persistence layer fails the deletion of R2. -/
def repoThree : Repo := ⟨100, [S1], [R1, R2, R3, R4], [2]⟩

/-- A repository whose counts report expired records under a hold: five
expired records, none prunable. -/
def heldModels : Models Repo RepoError where
  CountExpired := fun _ => Except.ok (5, 0)
  PrunableRecords := memModels.PrunableRecords
  Delete := memModels.Delete

/-- A repository whose count query fails. -/
def brokenCount : Models Repo RepoError where
  CountExpired := fun _ => Except.error RepoError.StorageError
  PrunableRecords := memModels.PrunableRecords
  Delete := memModels.Delete

/-- A repository whose record query fails. -/
def brokenFetch : Models Repo RepoError where
  CountExpired := memModels.CountExpired
  PrunableRecords := fun _ => Except.error RepoError.StorageError
  Delete := memModels.Delete

/-- A repository whose record query still lists R1 although R1 is no longer
stored (it was deleted through the API in the meantime). -/
def staleModels : Models Repo RepoError where
  CountExpired := fun _ => Except.ok (1, 1)
  PrunableRecords := fun _ => Except.ok [R1]
  Delete := memModels.Delete

/-- Store S1 without any record. -/
def repoEmpty : Repo := ⟨100, [S1], [], []⟩

/-- A repository whose counts report no expired record and three prunable
ones. -/
def idleModels : Models Repo RepoError where
  CountExpired := fun _ => Except.ok (0, 3)
  PrunableRecords := memModels.PrunableRecords
  Delete := memModels.Delete

/-- A web application with one seed store. -/
def sampleApp : App := ⟨"arc", "webapp", "index.html", [S1]⟩

/-- A configuration with the scheduler enabled and a period of ten seconds. -/
def confTen : Configuration := ⟨"127.0.0.1", 8443, ⟨true, 10⟩, ⟨false, "", ""⟩⟩

/-- A configuration with the scheduler enabled and a period of zero. -/
def confZero : Configuration := ⟨"127.0.0.1", 8443, ⟨true, 0⟩, ⟨false, "", ""⟩⟩

/-- An environment in which no call fails: config.Conf is the given
configuration and models.Setup reports the given dbIsNew. -/
def envOf (conf : Configuration) (dbIsNew : Bool) : Env RepoError where
  Create := fun _ => none
  Conf := conf
  Load := fun _ => Except.ok conf
  Setup := Except.ok dbIsNew
  Export := fun _ _ => none
  Import := fun _ => none
  Open := fun _ => Except.ok sampleApp
  ImportStores := fun _ => none
  Run := fun _ => none
  RunTLS := fun _ _ _ => none

/-- The flags of an import of the file backup.json. -/
def flagsImport : Flags := { Flags.defaults with import_fn := "backup.json" }

/-- The flags of an export of every store. -/
def flagsExport : Flags := { Flags.defaults with export_flag := true }

/-- The flags of a start with both the export and the import flag. -/
def flagsBoth : Flags :=
  { Flags.defaults with export_flag := true, import_fn := "backup.json" }

/-- An environment in which models.Setup fails and no other call does. -/
def envNoSetup : Env RepoError :=
  { envOf confTen false with Setup := Except.error RepoError.StorageError }

/-! ## Lemmas on the range loop -/

section Scheduler

variable {σ ε : Type}

theorem deleteCalls_append (a b : List (Event ε)) :
    deleteCalls (a ++ b) = deleteCalls a ++ deleteCalls b := by
  induction a with
  | nil => rfl
  | cons e rest ih => cases e <;> simp [deleteCalls, ih]

theorem logged_append (level : Level) (a b : List (Event ε)) :
    logged level (a ++ b) = logged level a ++ logged level b := by
  induction a with
  | nil => rfl
  | cons e rest ih =>
    cases e with
    | Log l msg => by_cases h : l = level <;> simp [logged, h, ih]
    | _ => simp [logged, ih]

theorem fetchCalls_append (a b : List (Event ε)) :
    fetchCalls (a ++ b) = fetchCalls a + fetchCalls b := by
  induction a with
  | nil => simp [fetchCalls]
  | cons e rest ih =>
    cases e <;> simp [fetchCalls, ih]
    omega

theorem pruneRecords_deleteCalls (M : Models σ ε) (records : List Record) (s : σ) :
    deleteCalls (pruneRecords M records s).1 = records := by
  induction records generalizing s with
  | nil => rfl
  | cons record rest ih =>
    simp only [pruneRecords, deleteCalls, deleteCalls_append, ih]
    cases (M.Delete record s).1 <;> simp [deleteCalls]

theorem pruneRecords_state (M : Models σ ε) (records : List Record) (s : σ) :
    (pruneRecords M records s).2 = deleteAll M records s := by
  induction records generalizing s with
  | nil => rfl
  | cons record rest ih => simp only [pruneRecords, deleteAll, ih]

theorem pruneRecords_fetchCalls (M : Models σ ε) (records : List Record) (s : σ) :
    fetchCalls (pruneRecords M records s).1 = 0 := by
  induction records generalizing s with
  | nil => rfl
  | cons record rest ih =>
    simp only [pruneRecords, fetchCalls, fetchCalls_append, ih]
    cases (M.Delete record s).1 <;> simp [fetchCalls]

theorem pruneRecords_errors (M : Models σ ε) (records : List Record) (s : σ) :
    logged Level.ERROR (pruneRecords M records s).1 = deleteErrors M records s := by
  induction records generalizing s with
  | nil => rfl
  | cons record rest ih =>
    simp only [pruneRecords, logged, logged_append, deleteErrors, ih]
    cases (M.Delete record s).1 <;> simp [logged]

theorem deleteErrors_append (M : Models σ ε) (a b : List Record) (s : σ) :
    deleteErrors M (a ++ b) s = deleteErrors M a s ++ deleteErrors M b (deleteAll M a s) := by
  induction a generalizing s with
  | nil => rfl
  | cons record rest ih =>
    show _ ++ deleteErrors M (rest ++ b) (M.Delete record s).2 = _
    rw [ih]
    simp only [deleteErrors, deleteAll, List.append_assoc]

/-- The body of the loop when both queries succeed and there is something to
prune: the two queries, then the range loop over the fetched records. -/
theorem tick_sweep (M : Models σ ε) (s : σ) (expired prunable : Int) (records : List Record)
    (hcount : M.CountExpired s = Except.ok (expired, prunable))
    (hexp : expired ≠ 0) (hpr : 0 < prunable)
    (hfetch : M.PrunableRecords s = Except.ok records) :
    tick M s =
      ⟨Flow.next,
       Event.CountExpired :: Event.Log Level.INFO (Msg.found prunable expired) ::
         Event.PrunableRecords :: (pruneRecords M records s).1,
       (pruneRecords M records s).2⟩ := by
  have hp : ¬ prunable ≤ 0 := not_le.mpr hpr
  simp only [tick, hcount, hfetch, if_neg hexp, if_neg hp]

/-- The body of the loop when CountExpired fails: one error entry. -/
theorem tick_count_error (M : Models σ ε) (s : σ) (err : ε)
    (hcount : M.CountExpired s = Except.error err) :
    tick M s =
      ⟨Flow.next, [Event.CountExpired, Event.Log Level.ERROR (Msg.countError err)], s⟩ := by
  simp only [tick, hcount]

/-- The body of the loop when PrunableRecords fails: one error entry after
the two queries. -/
theorem tick_fetch_error (M : Models σ ε) (s : σ) (expired prunable : Int) (err : ε)
    (hcount : M.CountExpired s = Except.ok (expired, prunable))
    (hexp : expired ≠ 0) (hpr : 0 < prunable)
    (hfetch : M.PrunableRecords s = Except.error err) :
    tick M s =
      ⟨Flow.next,
       [Event.CountExpired, Event.Log Level.INFO (Msg.found prunable expired),
        Event.PrunableRecords, Event.Log Level.ERROR (Msg.queryError err)], s⟩ := by
  have hp : ¬ prunable ≤ 0 := not_le.mpr hpr
  simp only [tick, hcount, hfetch, if_neg hexp, if_neg hp]

/-- One more iteration of the loop, when the body hands control back with
next and leaves the state as it found it. -/
theorem schedulerLoop_succ_same (M : Models σ ε) (period : Int) (n : Nat) (s : σ)
    (hflow : (tick M s).flow = Flow.next) (hstate : (tick M s).state = s) :
    schedulerLoop M period (n + 1) s =
      (Event.Sleep period :: ((tick M s).trace ++ (schedulerLoop M period n s).1),
       (schedulerLoop M period n s).2) := by
  simp only [schedulerLoop, hflow, hstate]

end Scheduler

/-! ## Lemmas on the repository in memory -/

theorem sameRecord_self (x : Record) : sameRecord x x = true := by
  simp [sameRecord]

theorem Repo.Delete_stores (x : Record) (repo : Repo) :
    (Repo.Delete x repo).2.stores = repo.stores := by
  unfold Repo.Delete
  split_ifs <;> rfl

theorem Repo.Delete_faults (x : Record) (repo : Repo) :
    (Repo.Delete x repo).2.faults = repo.faults := by
  unfold Repo.Delete
  split_ifs <;> rfl

theorem Repo.Delete_subset (x r : Record) (repo : Repo)
    (h : r ∈ (Repo.Delete x repo).2.records) : r ∈ repo.records := by
  unfold Repo.Delete at h
  split_ifs at h
  · exact h
  · exact (List.mem_filter.mp h).1
  · exact h

theorem Repo.Delete_keeps (x r : Record) (repo : Repo)
    (h : r ∈ repo.records) (hx : sameRecord x r = false) :
    r ∈ (Repo.Delete x repo).2.records := by
  unfold Repo.Delete
  split_ifs
  · exact h
  · exact List.mem_filter.mpr ⟨h, by simp [hx]⟩
  · exact h

theorem Repo.Delete_removes (x : Record) (repo : Repo) (hx : x.ID ∉ repo.faults) :
    x ∉ (Repo.Delete x repo).2.records := by
  unfold Repo.Delete
  rw [if_neg hx]
  split_ifs with hany
  · intro hmem
    have := (List.mem_filter.mp hmem).2
    simp [sameRecord_self] at this
  · intro hmem
    exact hany (List.any_eq_true.mpr ⟨x, hmem, sameRecord_self x⟩)

theorem deleteAll_mem_stores (xs : List Record) (repo : Repo) :
    (deleteAll memModels xs repo).stores = repo.stores := by
  induction xs generalizing repo with
  | nil => rfl
  | cons x rest ih =>
    show (deleteAll memModels rest (Repo.Delete x repo).2).stores = _
    rw [ih, Repo.Delete_stores]

theorem deleteAll_mem_subset (xs : List Record) (repo : Repo) (r : Record)
    (h : r ∈ (deleteAll memModels xs repo).records) : r ∈ repo.records := by
  induction xs generalizing repo with
  | nil => exact h
  | cons x rest ih => exact Repo.Delete_subset x r repo (ih _ h)

theorem deleteAll_mem_keeps (xs : List Record) (repo : Repo) (r : Record)
    (h : r ∈ repo.records) (hx : ∀ x ∈ xs, sameRecord x r = false) :
    r ∈ (deleteAll memModels xs repo).records := by
  induction xs generalizing repo with
  | nil => exact h
  | cons x rest ih =>
    exact ih _ (Repo.Delete_keeps x r repo h (hx x (List.mem_cons_self x rest)))
      (fun y hy => hx y (List.mem_cons_of_mem x hy))

theorem deleteAll_mem_removes (xs : List Record) (repo : Repo) (x : Record)
    (hmem : x ∈ xs) (hx : x.ID ∉ repo.faults) :
    x ∉ (deleteAll memModels xs repo).records := by
  induction xs generalizing repo with
  | nil => cases hmem
  | cons y rest ih =>
    by_cases hrest : x ∈ rest
    · refine ih _ hrest ?_
      show x.ID ∉ (Repo.Delete y repo).2.faults
      rw [Repo.Delete_faults]
      exact hx
    · have hxy : x = y := by
        rcases List.mem_cons.mp hmem with h | h
        · exact h
        · exact absurd h hrest
      subst hxy
      intro hin
      exact Repo.Delete_removes x repo hx (deleteAll_mem_subset rest _ x hin)

/-- The state one tick leaves of the repository in memory: Delete applied to
each prunable record in turn. -/
theorem tick_mem_state (repo : Repo) :
    (tick memModels repo).state =
      deleteAll memModels (repo.records.filter (fun r => isPrunable r repo.now)) repo := by
  have hc : memModels.CountExpired repo =
      Except.ok (((repo.records.filter (fun r => isPrunable r repo.now)).length : Int),
        ((repo.records.filter (fun r => isPrunable r repo.now)).length : Int)) := rfl
  by_cases hlen : (repo.records.filter (fun r => isPrunable r repo.now)).length = 0
  · have hnil := List.length_eq_zero.mp hlen
    rw [hlen] at hc
    rw [hnil]
    simp only [tick, hc, Nat.cast_zero, if_true]
    rfl
  · have hpos : (0 : Int) <
        ((repo.records.filter (fun r => isPrunable r repo.now)).length : Int) := by
      exact_mod_cast Nat.pos_of_ne_zero hlen
    rw [tick_sweep memModels repo _ _ _ hc (ne_of_gt hpos) hpos rfl]
    exact pruneRecords_state memModels _ repo

/-! ## Lemmas on main -/

section MainLemmas

variable {σ ε : Type}

theorem schedulerStarts_append (a b : List (MainEvent ε)) :
    schedulerStarts (a ++ b) = schedulerStarts a + schedulerStarts b := by
  induction a with
  | nil => simp [schedulerStarts]
  | cons e rest ih =>
    cases e <;> simp [schedulerStarts, ih]
    omega

theorem seedCalls_append (a b : List (MainEvent ε)) :
    seedCalls (a ++ b) = seedCalls a ++ seedCalls b := by
  induction a with
  | nil => rfl
  | cons e rest ih => cases e <;> simp [seedCalls, ih]

theorem sleepCalls_append (a b : List (Event ε)) :
    sleepCalls (a ++ b) = sleepCalls a ++ sleepCalls b := by
  induction a with
  | nil => rfl
  | cons e rest ih => cases e <;> simp [sleepCalls, ih]

theorem pruneRecords_sleepCalls (M : Models σ ε) (records : List Record) (s : σ) :
    sleepCalls (pruneRecords M records s).1 = [] := by
  induction records generalizing s with
  | nil => rfl
  | cons record rest ih =>
    simp only [pruneRecords, sleepCalls, sleepCalls_append, ih]
    cases (M.Delete record s).1 <;> simp [sleepCalls]

/-- Every path through the body of the loop hands control back with next and
does not sleep. -/
theorem tick_flow_sleep (M : Models σ ε) (s : σ) :
    (tick M s).flow = Flow.next ∧ sleepCalls (tick M s).trace = [] := by
  cases hc : M.CountExpired s with
  | error err => rw [tick_count_error M s err hc]; exact ⟨rfl, rfl⟩
  | ok p =>
    obtain ⟨expired, prunable⟩ := p
    by_cases hexp : expired = 0
    · simp [tick, hc, hexp, sleepCalls]
    · by_cases hpr : prunable ≤ 0
      · simp [tick, hc, hexp, hpr, sleepCalls]
      · cases hf : M.PrunableRecords s with
        | error err =>
          rw [tick_fetch_error M s expired prunable err hc hexp (not_le.mp hpr) hf]
          exact ⟨rfl, rfl⟩
        | ok records =>
          rw [tick_sweep M s expired prunable records hc hexp (not_le.mp hpr) hf]
          simp [sleepCalls, pruneRecords_sleepCalls]

/-- The loop sleeps once per iteration, each time for the period. -/
theorem schedulerLoop_sleepCalls (M : Models σ ε) (period : Int) (n : Nat) (s : σ) :
    sleepCalls (schedulerLoop M period n s).1 = List.replicate n period := by
  induction n generalizing s with
  | zero => rfl
  | succ n ih =>
    simp only [schedulerLoop, (tick_flow_sleep M s).1, sleepCalls, sleepCalls_append,
      (tick_flow_sleep M s).2, ih, List.nil_append, List.replicate_succ]

theorem wrapInt64_of_range (x : Int) (hlo : -9223372036854775808 ≤ x)
    (hhi : x < 9223372036854775808) : wrapInt64 x = x := by
  unfold wrapInt64
  norm_num
  omega

/-- Within 9223372036 seconds either way the period is the configured number
of seconds, without overflow. -/
theorem schedulerPeriod_of_range (Period : Int) (hlo : -9223372036 ≤ Period)
    (hhi : Period ≤ 9223372036) : schedulerPeriod Period = Period * Second := by
  unfold schedulerPeriod Second
  rw [wrapInt64_of_range Period (by omega) (by omega)]
  exact wrapInt64_of_range _ (by omega) (by omega)

/-- When nothing fails before it, main is the code from models.Setup on,
with the configuration in force. -/
theorem main_of_boots (flags : Flags) (env : Env ε) (hboot : boots flags env = true) :
    main flags env = start flags env (loadedConf flags env) (bootTrace flags) := by
  simp only [boots, Bool.and_eq_true, Bool.or_eq_true, decide_eq_true_eq] at hboot
  obtain ⟨⟨hlog, hconf⟩, -⟩ := hboot
  have hmain : main flags env = configure flags env
      ([MainEvent.SetWithColors (!flags.no_colors)] ++
        (if flags.logfile ≠ "" then [MainEvent.Create flags.logfile] else [])) := by
    by_cases hl : flags.logfile = ""
    · simp [main, hl]
    · rcases hlog with h | h
      · exact absurd h hl
      · cases hcr : env.Create flags.logfile with
        | some err => rw [hcr] at h; cases h
        | none => simp [main, hl, hcr]
  rw [hmain]
  by_cases hc : flags.conf_file = ""
  · simp [configure, loadedConf, bootTrace, hc]
  · rcases hconf with h | h
    · exact absurd h hc
    · cases hld : env.Load flags.conf_file with
      | error err => rw [hld] at h; cases h
      | ok conf => simp [configure, loadedConf, bootTrace, hc, hld]

theorem listen_facts (flags : Flags) (env : Env ε) (conf : Configuration) (webapp : App)
    (r : Engine) (t : List (MainEvent ε)) :
    schedulerStarts (listen flags env conf webapp r t).trace = schedulerStarts t ∧
    seedCalls (listen flags env conf webapp r t).trace = seedCalls t ∧
    (listen flags env conf webapp r t).routes = (register flags r).routes ∧
    (listen flags env conf webapp r t).Conf = conf := by
  simp only [listen, fatal, returned]
  split_ifs <;> split <;>
    simp [schedulerStarts_append, seedCalls_append, schedulerStarts, seedCalls]

theorem serve_facts (flags : Flags) (env : Env ε) (conf : Configuration) (dbIsNew : Bool)
    (t : List (MainEvent ε)) :
    schedulerStarts (serve flags env conf dbIsNew t).trace = schedulerStarts t ∧
    (seedCalls (serve flags env conf dbIsNew t).trace = seedCalls t ∨
      (dbIsNew = true ∧ ∃ seeds,
        seedCalls (serve flags env conf dbIsNew t).trace =
          seedCalls t ++ [seeds])) ∧
    ((serve flags env conf dbIsNew t).routes = [] ∨
      ∃ webapp : App, (serve flags env conf dbIsNew t).routes =
        (register flags
          (Engine.New.Use (Handler.ServeStatic "/" webapp.Path webapp.Index))).routes) := by
  unfold serve arcLoadApp
  cases hopen : env.Open flags.apppath with
  | error err =>
    simp [fatal, schedulerStarts_append, seedCalls_append, schedulerStarts,
      seedCalls, Engine.New]
  | ok webapp =>
    by_cases hseed : (dbIsNew && decide (webapp.Seeds.length > 0)) = true
    · have hnew : dbIsNew = true := by
        simp only [Bool.and_eq_true] at hseed
        exact hseed.1
      dsimp only
      rw [if_pos hseed]
      cases himp : env.ImportStores webapp.Seeds with
      | some err =>
        simp [fatal, schedulerStarts_append, seedCalls_append, schedulerStarts,
          seedCalls, Engine.New, Engine.Use, hnew]
      | none =>
        simp only []
        refine ⟨?_, Or.inr ⟨hnew, webapp.Seeds, ?_⟩, Or.inr ⟨webapp, ?_⟩⟩
        · rw [(listen_facts flags env conf webapp _ _).1]
          simp [schedulerStarts_append, schedulerStarts]
        · rw [(listen_facts flags env conf webapp _ _).2.1]
          simp [seedCalls_append, seedCalls]
        · rw [(listen_facts flags env conf webapp _ _).2.2.1]
    · dsimp only
      rw [if_neg hseed]
      refine ⟨?_, Or.inl ?_, Or.inr ⟨webapp, ?_⟩⟩
      · rw [(listen_facts flags env conf webapp _ _).1]
        simp [schedulerStarts_append, schedulerStarts]
      · rw [(listen_facts flags env conf webapp _ _).2.1]
        simp [seedCalls_append, seedCalls]
      · rw [(listen_facts flags env conf webapp _ _).2.2.1]

theorem start_facts (flags : Flags) (env : Env ε) (conf : Configuration)
    (t : List (MainEvent ε)) :
    schedulerStarts (start flags env conf t).trace ≤ schedulerStarts t + 1 ∧
    (seedCalls (start flags env conf t).trace = seedCalls t ∨
      (env.Setup = Except.ok true ∧ ∃ seeds,
        seedCalls (start flags env conf t).trace = seedCalls t ++ [seeds])) ∧
    ((start flags env conf t).routes = [] ∨
      ∃ webapp : App, (start flags env conf t).routes =
        (register flags
          (Engine.New.Use (Handler.ServeStatic "/" webapp.Path webapp.Index))).routes) ∧
    (flags.export_flag = true ∨ flags.import_fn ≠ "" →
      schedulerStarts (start flags env conf t).trace = schedulerStarts t ∧
      (start flags env conf t).routes = []) := by
  unfold start
  cases hsetup : env.Setup with
  | error err =>
    simp [fatal, schedulerStarts_append, seedCalls_append, schedulerStarts,
      seedCalls]
  | ok dbIsNew =>
    dsimp only
    by_cases hexp : flags.export_flag = true
    · rw [if_pos hexp]
      cases env.Export flags.store_id flags.output with
      | some err =>
        simp [fatal, schedulerStarts_append, seedCalls_append, schedulerStarts,
          seedCalls]
      | none =>
        simp only [returned]
        split_ifs <;>
          simp [schedulerStarts_append, seedCalls_append, schedulerStarts,
            seedCalls]
    · rw [if_neg hexp]
      by_cases himp : flags.import_fn ≠ ""
      · rw [if_pos himp]
        cases env.Import flags.import_fn with
        | some err =>
          simp [fatal, schedulerStarts_append, seedCalls_append, schedulerStarts,
            seedCalls]
        | none =>
          simp only [returned]
          split_ifs <;>
            simp [schedulerStarts_append, seedCalls_append, schedulerStarts,
              seedCalls]
      · rw [if_neg himp]
        have hno : ¬ (flags.export_flag = true ∨ flags.import_fn ≠ "") := by
          rintro (h | h)
          · exact hexp h
          · exact himp h
        by_cases hen : conf.Scheduler.Enabled = true
        · rw [if_pos hen]
          have h := serve_facts flags env conf dbIsNew
            (t ++ [MainEvent.Setup] ++
              [MainEvent.Log Level.INFO (MainMsg.startingScheduler conf.Scheduler.Period),
               MainEvent.GoScheduler])
          refine ⟨?_, ?_, h.2.2, fun hf => absurd hf hno⟩
          · rw [h.1]
            simp [schedulerStarts_append, schedulerStarts]
          · rcases h.2.1 with h1 | ⟨hnew, seeds, h1⟩
            · left
              rw [h1]
              simp [seedCalls_append, seedCalls]
            · right
              refine ⟨by rw [hnew], seeds, ?_⟩
              rw [h1]
              simp [seedCalls_append, seedCalls]
        · rw [if_neg hen]
          have h := serve_facts flags env conf dbIsNew
            (t ++ [MainEvent.Setup] ++ [MainEvent.Log Level.WARNING MainMsg.schedulerDisabled])
          refine ⟨?_, ?_, h.2.2, fun hf => absurd hf hno⟩
          · rw [h.1]
            simp [schedulerStarts_append, schedulerStarts]
          · rcases h.2.1 with h1 | ⟨hnew, seeds, h1⟩
            · left
              rw [h1]
              simp [seedCalls_append, seedCalls]
            · right
              refine ⟨by rw [hnew], seeds, ?_⟩
              rw [h1]
              simp [seedCalls_append, seedCalls]

theorem configure_facts (flags : Flags) (env : Env ε) (t : List (MainEvent ε)) :
    schedulerStarts (configure flags env t).trace ≤ schedulerStarts t + 1 ∧
    (seedCalls (configure flags env t).trace = seedCalls t ∨
      (env.Setup = Except.ok true ∧ ∃ seeds,
        seedCalls (configure flags env t).trace = seedCalls t ++ [seeds])) ∧
    ((configure flags env t).routes = [] ∨
      ∃ webapp : App, (configure flags env t).routes =
        (register flags
          (Engine.New.Use (Handler.ServeStatic "/" webapp.Path webapp.Index))).routes) ∧
    (flags.export_flag = true ∨ flags.import_fn ≠ "" →
      schedulerStarts (configure flags env t).trace = schedulerStarts t ∧
      (configure flags env t).routes = []) := by
  unfold configure
  dsimp only
  by_cases hc : flags.conf_file ≠ ""
  · rw [if_pos hc]
    cases env.Load flags.conf_file with
    | error err =>
      simp [fatal, schedulerStarts_append, seedCalls_append, schedulerStarts,
        seedCalls]
    | ok conf =>
      have h := start_facts flags env conf
        (t ++ [MainEvent.SetMinLevel (if flags.debug = true then Level.DEBUG else Level.INFO),
          MainEvent.Log Level.INFO (MainMsg.starting APP_NAME APP_VERSION)] ++
          [MainEvent.Load flags.conf_file])
      simpa [schedulerStarts_append, seedCalls_append, schedulerStarts,
        seedCalls] using h
  · rw [if_neg hc]
    have h := start_facts flags env env.Conf
      (t ++ [MainEvent.SetMinLevel (if flags.debug = true then Level.DEBUG else Level.INFO),
        MainEvent.Log Level.INFO (MainMsg.starting APP_NAME APP_VERSION)])
    simpa [schedulerStarts_append, seedCalls_append, schedulerStarts,
      seedCalls] using h

/-- What holds of every run of main: the scheduler goroutine is started at
most once, models.ImportStores is called at most once and only on a database
that models.Setup reported as new, the routes are either none or those of
register, and a run with the export or the import flag starts no scheduler
and registers no route. -/
theorem main_facts (flags : Flags) (env : Env ε) :
    schedulerStarts (main flags env).trace ≤ 1 ∧
    (seedCalls (main flags env).trace = [] ∨
      (env.Setup = Except.ok true ∧ ∃ seeds,
        seedCalls (main flags env).trace = [seeds])) ∧
    ((main flags env).routes = [] ∨
      ∃ webapp : App, (main flags env).routes =
        (register flags
          (Engine.New.Use (Handler.ServeStatic "/" webapp.Path webapp.Index))).routes) ∧
    (flags.export_flag = true ∨ flags.import_fn ≠ "" →
      schedulerStarts (main flags env).trace = 0 ∧ (main flags env).routes = []) := by
  unfold main
  dsimp only
  by_cases hl : flags.logfile ≠ ""
  · rw [if_pos hl]
    cases env.Create flags.logfile with
    | some err =>
      simp [fatal, schedulerStarts_append, seedCalls_append, schedulerStarts,
        seedCalls]
    | none =>
      have h := configure_facts flags env
        ([MainEvent.SetWithColors (!flags.no_colors)] ++ [MainEvent.Create flags.logfile])
      simpa [schedulerStarts, seedCalls] using h
  · rw [if_neg hl]
    have h := configure_facts flags env [MainEvent.SetWithColors (!flags.no_colors)]
    simpa [schedulerStarts, seedCalls] using h

theorem serve_conf (flags : Flags) (env : Env ε) (conf : Configuration) (dbIsNew : Bool)
    (t : List (MainEvent ε)) : (serve flags env conf dbIsNew t).Conf = conf := by
  unfold serve arcLoadApp
  cases env.Open flags.apppath with
  | error err => rfl
  | ok webapp =>
    dsimp only
    split_ifs
    · cases env.ImportStores webapp.Seeds with
      | some err => rfl
      | none => exact (listen_facts flags env conf webapp _ _).2.2.2
    · exact (listen_facts flags env conf webapp _ _).2.2.2

theorem setup_of_boots (flags : Flags) (env : Env ε) (hboot : boots flags env = true) :
    ∃ dbIsNew, env.Setup = Except.ok dbIsNew := by
  simp only [boots, Bool.and_eq_true] at hboot
  cases hs : env.Setup with
  | error err => rw [hs] at hboot; exact absurd hboot.2 (by simp [Except.toBool])
  | ok dbIsNew => exact ⟨dbIsNew, rfl⟩

theorem start_export (flags : Flags) (env : Env ε) (conf : Configuration)
    (t : List (MainEvent ε)) (dbIsNew : Bool) (hsetup : env.Setup = Except.ok dbIsNew)
    (hexp : flags.export_flag = true) :
    start flags env conf t =
      match env.Export flags.store_id flags.output with
      | some err =>
        fatal (t ++ [MainEvent.Setup] ++ [MainEvent.Export flags.store_id flags.output])
          err conf []
      | none =>
        returned flags (t ++ [MainEvent.Setup] ++ [MainEvent.Export flags.store_id flags.output])
          conf [] := by
  unfold start
  rw [hsetup]
  dsimp only
  rw [if_pos hexp]

theorem start_import (flags : Flags) (env : Env ε) (conf : Configuration)
    (t : List (MainEvent ε)) (dbIsNew : Bool) (hsetup : env.Setup = Except.ok dbIsNew)
    (hexp : flags.export_flag = false) (himp : flags.import_fn ≠ "") :
    start flags env conf t =
      match env.Import flags.import_fn with
      | some err =>
        fatal (t ++ [MainEvent.Setup] ++ [MainEvent.Import flags.import_fn]) err conf []
      | none =>
        returned flags (t ++ [MainEvent.Setup] ++ [MainEvent.Import flags.import_fn])
          conf [] := by
  unfold start
  rw [hsetup]
  dsimp only
  rw [if_neg (by rw [hexp]; decide), if_pos himp]

theorem start_scheduler (flags : Flags) (env : Env ε) (conf : Configuration)
    (t : List (MainEvent ε)) (dbIsNew : Bool) (hsetup : env.Setup = Except.ok dbIsNew)
    (hexp : flags.export_flag = false) (himp : flags.import_fn = "")
    (hen : conf.Scheduler.Enabled = true) :
    start flags env conf t =
      serve flags env conf dbIsNew
        (t ++ [MainEvent.Setup] ++
          [MainEvent.Log Level.INFO (MainMsg.startingScheduler conf.Scheduler.Period),
           MainEvent.GoScheduler]) := by
  unfold start
  rw [hsetup]
  dsimp only
  rw [if_neg (by rw [hexp]; decide), if_neg (not_not.mpr himp), if_pos hen]

/-- The routes of register when authentication is not disabled. -/
theorem register_routes (flags : Flags) (static : Handler) (h : flags.no_auth = false) :
    (register flags (Engine.New.Use static)).routes =
      [⟨"POST", "/auth", [static, Handler.controller Controller.Auth]⟩,
       ⟨"GET", "/api/manifest",
        [static, Handler.AuthHandler, Handler.controller Controller.GetManifest]⟩,
       ⟨"GET", "/api/config",
        [static, Handler.AuthHandler, Handler.controller Controller.GetConfig]⟩,
       ⟨"GET", "/api/stores",
        [static, Handler.AuthHandler, Handler.controller Controller.ListStores]⟩,
       ⟨"POST", "/api/stores",
        [static, Handler.AuthHandler, Handler.controller Controller.CreateStore]⟩,
       ⟨"GET", "/api/store/:id",
        [static, Handler.AuthHandler, Handler.controller Controller.GetStore]⟩,
       ⟨"PUT", "/api/store/:id",
        [static, Handler.AuthHandler, Handler.controller Controller.UpdateStore]⟩,
       ⟨"DELETE", "/api/store/:id",
        [static, Handler.AuthHandler, Handler.controller Controller.DeleteStore]⟩,
       ⟨"GET", "/api/store/:id/records",
        [static, Handler.AuthHandler, Handler.controller Controller.ListRecords]⟩,
       ⟨"POST", "/api/store/:id/records",
        [static, Handler.AuthHandler, Handler.controller Controller.CreateRecord]⟩,
       ⟨"GET", "/api/store/:id/record/:r_id",
        [static, Handler.AuthHandler, Handler.controller Controller.GetRecord]⟩,
       ⟨"GET", "/api/store/:id/record/:r_id/buffer",
        [static, Handler.AuthHandler, Handler.controller Controller.GetRecordBuffer]⟩,
       ⟨"PUT", "/api/store/:id/record/:r_id",
        [static, Handler.AuthHandler, Handler.controller Controller.UpdateRecord]⟩,
       ⟨"DELETE", "/api/store/:id/record/:r_id",
        [static, Handler.AuthHandler, Handler.controller Controller.DeleteRecord]⟩] := by
  simp only [register, h, if_true]
  rfl

/-- A chain with AuthHandler ahead of its controller runs no controller on a
Denied decision. -/
theorem denied_runs_no_controller (url path index : String) (c c2 : Controller)
    (served : Bool) :
    Handler.controller c2 ∉
      runChain Decision.Denied served
        [Handler.ServeStatic url path index, Handler.AuthHandler, Handler.controller c] := by
  cases served <;> simp [runChain, aborts]

theorem commands_append (a b : List (MainEvent ε)) :
    commands (a ++ b) = commands a ++ commands b := by
  induction a with
  | nil => rfl
  | cons e rest ih => cases e <;> simp [commands, ih]

theorem commands_bootTrace (flags : Flags) :
    commands (bootTrace flags : List (MainEvent ε)) = [] := by
  simp only [bootTrace, commands_append]
  split_ifs <;> simp [commands]

theorem schedulerStarts_bootTrace (flags : Flags) :
    schedulerStarts (bootTrace flags : List (MainEvent ε)) = 0 := by
  simp only [bootTrace, schedulerStarts_append]
  split_ifs <;> simp [schedulerStarts]

/-- When the log file, the configuration file or models.Setup fails, main
ends in log.Fatal without having called models.Export or models.Import. -/
theorem main_of_not_boots (flags : Flags) (env : Env ε) (hboot : boots flags env = false) :
    commands (main flags env).trace = [] ∧ (main flags env).exit = Exit.fatal := by
  unfold main
  dsimp only
  by_cases hl : flags.logfile ≠ ""
  · rw [if_pos hl]
    cases hcr : env.Create flags.logfile with
    | some err => simp [fatal, commands_append, commands]
    | none =>
      unfold configure
      dsimp only
      by_cases hc : flags.conf_file ≠ ""
      · rw [if_pos hc]
        cases hld : env.Load flags.conf_file with
        | error err => simp [fatal, commands_append, commands]
        | ok conf =>
          unfold start
          cases hs : env.Setup with
          | error err => simp [fatal, commands_append, commands]
          | ok dbIsNew =>
            simp [boots, hcr, hld, hs, Except.toBool] at hboot
      · rw [if_neg hc]
        unfold start
        cases hs : env.Setup with
        | error err => simp [fatal, commands_append, commands]
        | ok dbIsNew =>
          simp [boots, hcr, not_not.mp hc, hs, Except.toBool] at hboot
  · rw [if_neg hl]
    unfold configure
    dsimp only
    by_cases hc : flags.conf_file ≠ ""
    · rw [if_pos hc]
      cases hld : env.Load flags.conf_file with
      | error err => simp [fatal, commands_append, commands]
      | ok conf =>
        unfold start
        cases hs : env.Setup with
        | error err => simp [fatal, commands_append, commands]
        | ok dbIsNew =>
          simp [boots, not_not.mp hl, hld, hs, Except.toBool] at hboot
    · rw [if_neg hc]
      unfold start
      cases hs : env.Setup with
      | error err => simp [fatal, commands_append, commands]
      | ok dbIsNew =>
        simp [boots, not_not.mp hl, not_not.mp hc, hs, Except.toBool] at hboot

/-- The pause of a period of at least one and at most 9223372036 seconds is
that number of seconds. -/
theorem sleepPause_of_pos (Period : Int) (hpos : 0 < Period) (hhi : Period ≤ 9223372036) :
    sleepPause (schedulerPeriod Period) = Period * Second := by
  rw [schedulerPeriod_of_range Period (by omega) hhi]
  unfold sleepPause Second
  rw [if_neg (by omega)]

/-- The pause of a period of zero or less, down to 9223372036 seconds below
zero, is zero. -/
theorem sleepPause_of_nonpos (Period : Int) (hle : Period ≤ 0) (hlo : -9223372036 ≤ Period) :
    sleepPause (schedulerPeriod Period) = 0 := by
  rw [schedulerPeriod_of_range Period hlo (by omega)]
  unfold sleepPause Second
  rw [if_pos (by omega)]

end MainLemmas

/-! ## The sweep -/

section Claims

variable {σ ε : Type}

/-- C1: when both queries succeed and there is something to prune, one sweep
calls Delete on every fetched record, in order, whatever Delete returns for
each of them: the Delete calls of the trace are exactly the fetched list, the
state left is the one obtained by applying every Delete in turn, the error
entries are exactly those of the deletions that failed, and the body hands
control back to the loop.  On the repository in memory, every prunable record
whose deletion the persistence layer does not fail is gone after the sweep,
whichever other deletions fail. -/
theorem sweep_attempts_every_delete (M : Models σ ε) (s : σ) (expired prunable : Int)
    (records : List Record) (repo : Repo)
    (hcount : M.CountExpired s = Except.ok (expired, prunable))
    (hexp : expired ≠ 0) (hpr : 0 < prunable)
    (hfetch : M.PrunableRecords s = Except.ok records) :
    deleteCalls (tick M s).trace = records ∧
    (tick M s).state = deleteAll M records s ∧
    logged Level.ERROR (tick M s).trace = deleteErrors M records s ∧
    (tick M s).flow = Flow.next ∧
    (∀ r ∈ repo.records, isPrunable r repo.now = true → r.ID ∉ repo.faults →
      r ∉ (tick memModels repo).state.records) := by
  rw [tick_sweep M s expired prunable records hcount hexp hpr hfetch]
  refine ⟨?_, pruneRecords_state M records s, ?_, rfl, ?_⟩
  · simp only [deleteCalls, pruneRecords_deleteCalls]
  · simp [logged, pruneRecords_errors]
  · intro r hr hprunable hfault
    rw [tick_mem_state]
    exact deleteAll_mem_removes _ repo r (List.mem_filter.mpr ⟨hr, hprunable⟩) hfault

/-- C1, on three fetched records of which the second cannot be deleted:
Delete is called on all three, the first and the third are gone, the second
and the record that is not expired remain, and the one failure is logged. -/
theorem sweep_attempts_every_delete_witness :
    deleteCalls (tick memModels repoThree).trace = [R1, R2, R3] ∧
    (tick memModels repoThree).state.records = [R2, R4] ∧
    logged Level.ERROR (tick memModels repoThree).trace =
      [Msg.deleteError 2 RepoError.StorageError] ∧
    R1 ∉ (tick memModels repoThree).state.records ∧
    R3 ∉ (tick memModels repoThree).state.records := by
  have h := sweep_attempts_every_delete memModels repoThree 3 3 [R1, R2, R3] repoThree
    rfl (by decide) (by decide) rfl
  refine ⟨h.1, ?_, ?_, h.2.2.2.2 R1 (by decide) rfl (by decide),
    h.2.2.2.2 R3 (by decide) rfl (by decide)⟩
  · rw [h.2.1]; rfl
  · rw [h.2.2.1]; rfl

/-- C2: when CountExpired reports expired records and no prunable one, the
body logs one debug entry and goes back to the loop: PrunableRecords and
Delete are not called, the state of the repository is the one it found, and
the next tick counts the same records as expired. -/
theorem held_sweep_leaves_repository (M : Models σ ε) (s : σ) (expired prunable : Int)
    (hcount : M.CountExpired s = Except.ok (expired, prunable))
    (hexp : 0 < expired) (hpr : prunable = 0) :
    (tick M s).trace = [Event.CountExpired, Event.Log Level.DEBUG (Msg.noPrunable expired)] ∧
    fetchCalls (tick M s).trace = 0 ∧
    deleteCalls (tick M s).trace = [] ∧
    (tick M s).state = s ∧
    (tick M s).flow = Flow.next ∧
    M.CountExpired (tick M s).state = Except.ok (expired, prunable) ∧
    ∀ period : Int, schedulerLoop M period 2 s =
      ([Event.Sleep period, Event.CountExpired, Event.Log Level.DEBUG (Msg.noPrunable expired),
        Event.Sleep period, Event.CountExpired, Event.Log Level.DEBUG (Msg.noPrunable expired)],
       s) := by
  have hne : expired ≠ 0 := ne_of_gt hexp
  have hle : prunable ≤ 0 := le_of_eq hpr
  have ht : tick M s =
      ⟨Flow.next, [Event.CountExpired, Event.Log Level.DEBUG (Msg.noPrunable expired)], s⟩ := by
    simp only [tick, hcount, if_neg hne, if_pos hle]
  refine ⟨by rw [ht], by rw [ht]; rfl, by rw [ht]; rfl, by rw [ht], by rw [ht], ?_, ?_⟩
  · rw [ht]; exact hcount
  · intro period
    simp only [schedulerLoop, ht, List.cons_append, List.nil_append, List.append_nil]

/-- C2, on a repository that reports five expired records under a hold. -/
theorem held_sweep_leaves_repository_witness :
    (tick heldModels repoThree).trace =
      [Event.CountExpired, Event.Log Level.DEBUG (Msg.noPrunable 5)] ∧
    (tick heldModels repoThree).state = repoThree ∧
    heldModels.CountExpired (tick heldModels repoThree).state = Except.ok (5, 0) := by
  have h := held_sweep_leaves_repository heldModels repoThree 5 0 rfl (by decide) rfl
  exact ⟨h.1, h.2.2.2.1, h.2.2.2.2.2.1⟩

/-- C5: when CountExpired fails, or when it reports something to prune and
PrunableRecords fails, the body logs one error entry and nothing at the fatal
level, calls Delete on no record, leaves the state as it found it and hands
control back to the loop, whose next iteration sleeps and runs the body
again. -/
theorem query_failure_skips_tick (M : Models σ ε) (s : σ)
    (hfail : (∃ err, M.CountExpired s = Except.error err) ∨
      (∃ expired prunable err, M.CountExpired s = Except.ok (expired, prunable) ∧
        expired ≠ 0 ∧ 0 < prunable ∧ M.PrunableRecords s = Except.error err)) :
    (logged Level.ERROR (tick M s).trace).length = 1 ∧
    logged Level.FATAL (tick M s).trace = [] ∧
    deleteCalls (tick M s).trace = [] ∧
    (tick M s).state = s ∧
    (tick M s).flow = Flow.next ∧
    ∀ (period : Int) (n : Nat), schedulerLoop M period (n + 1) s =
      (Event.Sleep period :: ((tick M s).trace ++ (schedulerLoop M period n s).1),
       (schedulerLoop M period n s).2) := by
  have key : (logged Level.ERROR (tick M s).trace).length = 1 ∧
      logged Level.FATAL (tick M s).trace = [] ∧
      deleteCalls (tick M s).trace = [] ∧
      (tick M s).state = s ∧ (tick M s).flow = Flow.next := by
    rcases hfail with ⟨err, hcount⟩ | ⟨expired, prunable, err, hcount, hexp, hpr, hfetch⟩
    · rw [tick_count_error M s err hcount]
      exact ⟨rfl, rfl, rfl, rfl, rfl⟩
    · rw [tick_fetch_error M s expired prunable err hcount hexp hpr hfetch]
      exact ⟨rfl, rfl, rfl, rfl, rfl⟩
  obtain ⟨h1, h2, h3, h4, h5⟩ := key
  exact ⟨h1, h2, h3, h4, h5, fun period n => schedulerLoop_succ_same M period n s h5 h4⟩

/-- C5, on a repository whose count query fails and on one whose record
query fails: the error is logged, nothing is deleted. -/
theorem query_failure_skips_tick_witness :
    (logged Level.ERROR (tick brokenCount repoThree).trace =
        [Msg.countError RepoError.StorageError] ∧
      (tick brokenCount repoThree).state = repoThree ∧
      (logged Level.ERROR (tick brokenCount repoThree).trace).length = 1) ∧
    (logged Level.ERROR (tick brokenFetch repoThree).trace =
        [Msg.queryError RepoError.StorageError] ∧
      (tick brokenFetch repoThree).state = repoThree ∧
      deleteCalls (tick brokenFetch repoThree).trace = []) := by
  have h1 := query_failure_skips_tick brokenCount repoThree
    (Or.inl ⟨RepoError.StorageError, rfl⟩)
  have h2 := query_failure_skips_tick brokenFetch repoThree
    (Or.inr ⟨3, 3, RepoError.StorageError, rfl, by decide, by decide, rfl⟩)
  exact ⟨⟨rfl, h1.2.2.2.1, h1.1⟩, ⟨rfl, h2.2.2.2.1, h2.2.2.1⟩⟩

/-- C7: when CountExpired reports zero expired records, whatever the prunable
count, the body calls neither PrunableRecords nor Delete, logs nothing,
leaves the state as it found it and hands control back to the loop. -/
theorem no_expired_is_idle (M : Models σ ε) (s : σ) (prunable : Int)
    (hcount : M.CountExpired s = Except.ok (0, prunable)) :
    (tick M s).trace = [Event.CountExpired] ∧
    fetchCalls (tick M s).trace = 0 ∧
    deleteCalls (tick M s).trace = [] ∧
    (tick M s).state = s ∧
    (tick M s).flow = Flow.next ∧
    ∀ (period : Int) (n : Nat), schedulerLoop M period (n + 1) s =
      (Event.Sleep period :: Event.CountExpired :: (schedulerLoop M period n s).1,
       (schedulerLoop M period n s).2) := by
  have ht : tick M s = ⟨Flow.next, [Event.CountExpired], s⟩ := by
    simp only [tick, hcount, if_true]
  refine ⟨by rw [ht], by rw [ht]; rfl, by rw [ht]; rfl, by rw [ht], by rw [ht], ?_⟩
  intro period n
  simp only [schedulerLoop, ht, List.cons_append, List.nil_append]

/-- C7, on a repository that reports zero expired records and three prunable
ones. -/
theorem no_expired_is_idle_witness :
    (tick idleModels repoThree).trace = [Event.CountExpired] ∧
    deleteCalls (tick idleModels repoThree).trace = [] ∧
    (tick idleModels repoThree).state = repoThree := by
  have h := no_expired_is_idle idleModels repoThree 3 rfl
  exact ⟨h.1, h.2.2.1, h.2.2.2.1⟩

/-- C3: in one tick PrunableRecords is called at most once, and Delete is
called either on no record or on exactly the list PrunableRecords returned in
that tick, once per record and in order; arcScheduler calls no other deleting
function.  On the repository in memory one tick leaves the stores as they
are, keeps every record that is not the same entity as a prunable one, and,
when the persistence layer fails no deletion, removes every prunable
record. -/
theorem sweep_deletes_only_fetched (M : Models σ ε) (s : σ) (repo : Repo) :
    fetchCalls (tick M s).trace ≤ 1 ∧
    (deleteCalls (tick M s).trace = [] ∨
      (fetchCalls (tick M s).trace = 1 ∧
        M.PrunableRecords s = Except.ok (deleteCalls (tick M s).trace))) ∧
    (tick memModels repo).state.stores = repo.stores ∧
    (∀ r ∈ repo.records,
      (∀ x ∈ repo.records, isPrunable x repo.now = true → sameRecord x r = false) →
        r ∈ (tick memModels repo).state.records) ∧
    (repo.faults = [] → ∀ r ∈ repo.records, isPrunable r repo.now = true →
        r ∉ (tick memModels repo).state.records) := by
  refine ⟨?_, ?_, ?_, ?_, ?_⟩
  · cases hc : M.CountExpired s with
    | error err => rw [tick_count_error M s err hc]; simp [fetchCalls]
    | ok p =>
      obtain ⟨expired, prunable⟩ := p
      by_cases hexp : expired = 0
      · simp [tick, hc, hexp, fetchCalls]
      · by_cases hpr : prunable ≤ 0
        · simp [tick, hc, hexp, hpr, fetchCalls]
        · cases hf : M.PrunableRecords s with
          | error err =>
            rw [tick_fetch_error M s expired prunable err hc hexp (not_le.mp hpr) hf]
            simp [fetchCalls]
          | ok records =>
            rw [tick_sweep M s expired prunable records hc hexp (not_le.mp hpr) hf]
            simp [fetchCalls, pruneRecords_fetchCalls]
  · cases hc : M.CountExpired s with
    | error err => rw [tick_count_error M s err hc]; exact Or.inl rfl
    | ok p =>
      obtain ⟨expired, prunable⟩ := p
      by_cases hexp : expired = 0
      · simp only [tick, hc, if_pos hexp]; exact Or.inl rfl
      · by_cases hpr : prunable ≤ 0
        · simp only [tick, hc, if_neg hexp, if_pos hpr]; exact Or.inl rfl
        · cases hf : M.PrunableRecords s with
          | error err =>
            rw [tick_fetch_error M s expired prunable err hc hexp (not_le.mp hpr) hf]
            exact Or.inl rfl
          | ok records =>
            rw [tick_sweep M s expired prunable records hc hexp (not_le.mp hpr) hf]
            right
            simp [fetchCalls, deleteCalls, pruneRecords_fetchCalls, pruneRecords_deleteCalls]
  · rw [tick_mem_state, deleteAll_mem_stores]
  · intro r hr hother
    rw [tick_mem_state]
    refine deleteAll_mem_keeps _ repo r hr ?_
    intro x hx
    have := List.mem_filter.mp hx
    exact hother x this.1 this.2
  · intro hfaults r hr hprunable
    rw [tick_mem_state]
    refine deleteAll_mem_removes _ repo r (List.mem_filter.mpr ⟨hr, hprunable⟩) ?_
    rw [hfaults]
    exact List.not_mem_nil _

/-- C3, on store S1 with the single expired record R1: after one tick R1 is
gone and S1 is still there; on the repository with three expired records the
record that is not expired is kept. -/
theorem sweep_deletes_only_fetched_witness :
    deleteCalls (tick memModels repoOne).trace = [R1] ∧
    R1 ∉ (tick memModels repoOne).state.records ∧
    S1 ∈ (tick memModels repoOne).state.stores ∧
    R4 ∈ (tick memModels repoThree).state.records := by
  have h1 := sweep_deletes_only_fetched memModels repoOne repoOne
  have h3 := sweep_deletes_only_fetched memModels repoThree repoThree
  refine ⟨rfl, ?_, ?_, ?_⟩
  · exact h1.2.2.2.2 rfl R1 (by decide) rfl
  · rw [h1.2.2.1]; decide
  · exact h3.2.2.2.1 R4 (by decide) (by decide)

/-- C6, as the code has it: NotFound is logged like any other error.  The
query lists R1, which is no longer stored; Delete of R1 returns NotFound and
the sweep logs it at the error level. -/
theorem notfound_is_logged_as_error :
    staleModels.PrunableRecords repoEmpty = Except.ok [R1] ∧
    (staleModels.Delete R1 repoEmpty).1 = some RepoError.NotFound ∧
    deleteCalls (tick staleModels repoEmpty).trace = [R1] ∧
    logged Level.ERROR (tick staleModels repoEmpty).trace =
      [Msg.deleteError R1.ID RepoError.NotFound] := by
  exact ⟨rfl, rfl, rfl, rfl⟩

/-- C6, amended: when Delete of a fetched record returns an error, NotFound
or any other, the sweep logs one entry at the error level with the id of the
record and the error, and goes on with the records that follow: Delete is
still called on every fetched record. -/
theorem failed_delete_is_logged_as_error (M : Models σ ε) (s : σ) (expired prunable : Int)
    (before after : List Record) (record : Record) (err : ε)
    (hcount : M.CountExpired s = Except.ok (expired, prunable))
    (hexp : expired ≠ 0) (hpr : 0 < prunable)
    (hfetch : M.PrunableRecords s = Except.ok (before ++ record :: after))
    (hdel : (M.Delete record (deleteAll M before s)).1 = some err) :
    Msg.deleteError record.ID err ∈ logged Level.ERROR (tick M s).trace ∧
    deleteCalls (tick M s).trace = before ++ record :: after := by
  rw [tick_sweep M s expired prunable _ hcount hexp hpr hfetch]
  constructor
  · simp only [logged, pruneRecords_errors, deleteErrors_append, deleteErrors, hdel]
    simp
  · simp only [deleteCalls, pruneRecords_deleteCalls]

/-- C6, amended, on a deletion that returns NotFound and on one that returns
StorageError: both are logged at the error level. -/
theorem failed_delete_is_logged_as_error_witness :
    Msg.deleteError 1 RepoError.NotFound ∈
      logged Level.ERROR (tick staleModels repoEmpty).trace ∧
    Msg.deleteError 2 RepoError.StorageError ∈
      logged Level.ERROR (tick memModels repoThree).trace ∧
    deleteCalls (tick memModels repoThree).trace = [R1, R2, R3] := by
  have h1 := failed_delete_is_logged_as_error staleModels repoEmpty 1 1 [] [] R1
    RepoError.NotFound rfl (by decide) (by decide) rfl rfl
  have h2 := failed_delete_is_logged_as_error memModels repoThree 3 3 [R1] [R3] R2
    RepoError.StorageError rfl (by decide) (by decide) rfl rfl
  exact ⟨h1.1, h2.1, h2.2⟩

end Claims

/-! ## The startup sequence -/

section MainClaims

variable {σ ε ε2 : Type}

/-- C4, as the code has it: the period is neither checked nor raised.  With
the scheduler enabled and a configured period of zero, main starts the
scheduler and every sleep of the loop lasts zero nanoseconds. -/
theorem zero_period_sleeps_zero :
    boots Flags.defaults (envOf confZero false) = true ∧
    confZero.Scheduler.Enabled = true ∧
    schedulerStarts (main Flags.defaults (envOf confZero false)).trace = 1 ∧
    (main Flags.defaults (envOf confZero false)).Conf.Scheduler.Period = 0 ∧
    sleepCalls (arcScheduler memModels 0 3 repoEmpty).1 = [0, 0, 0] ∧
    ¬ (0 < schedulerPeriod confZero.Scheduler.Period) := by
  refine ⟨rfl, rfl, rfl, rfl, rfl, by decide⟩

/-- C4, amended: the period is used as it is configured.  When nothing fails
before it, neither the export flag nor the import flag is set and the
configuration in force enables the scheduler, main starts the scheduler
goroutine whatever the period, and hands it that configuration unchanged.
Every iteration of the loop calls time.Sleep once, with the configured
period converted to nanoseconds.  For a period of at least one and at most
9223372036 seconds the loop pauses that number of seconds before each tick,
which is more than zero; for a period of zero or less (down to 9223372036
seconds below zero) time.Sleep returns at once and the pause is zero. -/
theorem scheduler_sleeps_configured_period (flags : Flags) (env : Env ε) (M : Models σ ε2)
    (n : Nat) (s : σ) :
    (boots flags env = true → flags.export_flag = false → flags.import_fn = "" →
      (loadedConf flags env).Scheduler.Enabled = true →
      schedulerStarts (main flags env).trace = 1 ∧
      (main flags env).Conf = loadedConf flags env) ∧
    sleepCalls (arcScheduler M (loadedConf flags env).Scheduler.Period n s).1 =
      List.replicate n (schedulerPeriod (loadedConf flags env).Scheduler.Period) ∧
    pauses (arcScheduler M (loadedConf flags env).Scheduler.Period n s).1 =
      List.replicate n (sleepPause (schedulerPeriod (loadedConf flags env).Scheduler.Period)) ∧
    (0 < (loadedConf flags env).Scheduler.Period →
      (loadedConf flags env).Scheduler.Period ≤ 9223372036 →
      sleepPause (schedulerPeriod (loadedConf flags env).Scheduler.Period) =
        (loadedConf flags env).Scheduler.Period * Second ∧
      0 < sleepPause (schedulerPeriod (loadedConf flags env).Scheduler.Period)) ∧
    ((loadedConf flags env).Scheduler.Period ≤ 0 →
      -9223372036 ≤ (loadedConf flags env).Scheduler.Period →
      sleepPause (schedulerPeriod (loadedConf flags env).Scheduler.Period) = 0) := by
  have hsleep : sleepCalls (arcScheduler M (loadedConf flags env).Scheduler.Period n s).1 =
      List.replicate n (schedulerPeriod (loadedConf flags env).Scheduler.Period) := by
    simp only [arcScheduler, sleepCalls, schedulerLoop_sleepCalls]
  refine ⟨?_, hsleep, ?_, ?_, ?_⟩
  · intro hboot hexp himp hen
    obtain ⟨dbIsNew, hsetup⟩ := setup_of_boots flags env hboot
    rw [main_of_boots flags env hboot,
      start_scheduler flags env _ _ dbIsNew hsetup hexp himp hen]
    refine ⟨?_, serve_conf flags env _ dbIsNew _⟩
    rw [(serve_facts flags env _ dbIsNew _).1]
    simp only [schedulerStarts_append, schedulerStarts_bootTrace]
    simp [schedulerStarts]
  · rw [pauses, hsleep, List.map_replicate]
  · intro hpos hhi
    have h := sleepPause_of_pos _ hpos hhi
    refine ⟨h, ?_⟩
    rw [h]
    unfold Second
    omega
  · intro hle hlo
    exact sleepPause_of_nonpos _ hle hlo

/-- C4, amended, on a period of ten seconds and on a period of zero: main
starts the scheduler in both cases; three iterations pause ten seconds each
in the first and do not pause at all in the second. -/
theorem scheduler_sleeps_configured_period_witness :
    (schedulerStarts (main Flags.defaults (envOf confTen false)).trace = 1 ∧
      pauses (arcScheduler memModels 10 3 repoThree).1 =
        [10000000000, 10000000000, 10000000000] ∧
      0 < sleepPause (schedulerPeriod 10)) ∧
    (schedulerStarts (main Flags.defaults (envOf confZero false)).trace = 1 ∧
      pauses (arcScheduler memModels 0 3 repoThree).1 = [0, 0, 0] ∧
      sleepPause (schedulerPeriod 0) = 0) := by
  have hten := scheduler_sleeps_configured_period Flags.defaults (envOf confTen false)
    memModels 3 repoThree
  have hzero := scheduler_sleeps_configured_period Flags.defaults (envOf confZero false)
    memModels 3 repoThree
  refine ⟨⟨(hten.1 rfl rfl rfl rfl).1, ?_, (hten.2.2.2.1 (by decide) (by decide)).2⟩,
    ⟨(hzero.1 rfl rfl rfl rfl).1, ?_, hzero.2.2.2.2 (by decide) (by decide)⟩⟩
  · have h := hten.2.2.1
    rw [(hten.2.2.2.1 (by decide) (by decide)).1] at h
    exact h
  · have h := hzero.2.2.1
    rw [hzero.2.2.2.2 (by decide) (by decide)] at h
    exact h

/-- C8: in every run of main, models.ImportStores is called at most once, it
is called only when models.Setup reported the database as newly created, and
on a database that already existed it is not called. -/
theorem seeding_only_on_new_database (flags : Flags) (env : Env ε) :
    (seedCalls (main flags env).trace).length ≤ 1 ∧
    (seedCalls (main flags env).trace ≠ [] → env.Setup = Except.ok true) ∧
    (env.Setup = Except.ok false → seedCalls (main flags env).trace = []) := by
  rcases (main_facts flags env).2.1 with h | ⟨hnew, seeds, h⟩
  · rw [h]
    exact ⟨by simp, fun hne => absurd rfl hne, fun _ => rfl⟩
  · rw [h]
    refine ⟨by simp, fun _ => hnew, fun hold => ?_⟩
    rw [hold] at hnew
    cases hnew

/-- C8, on a web application with one seed store: a new database is seeded
once with it, a database that already existed is not seeded. -/
theorem seeding_only_on_new_database_witness :
    seedCalls (main Flags.defaults (envOf confTen true)).trace = [[S1]] ∧
    (envOf confTen true).Setup = Except.ok true ∧
    seedCalls (main Flags.defaults (envOf confTen false)).trace = [] := by
  have hnew := seeding_only_on_new_database Flags.defaults (envOf confTen true)
  have hold := seeding_only_on_new_database Flags.defaults (envOf confTen false)
  have hcalls : seedCalls (main Flags.defaults (envOf confTen true)).trace = [[S1]] :=
    rfl
  refine ⟨hcalls, hnew.2.1 ?_, hold.2.2 rfl⟩
  rw [hcalls]
  exact List.cons_ne_nil _ _

/-- C9, as the code has it: the import flag does not always lead to an
import.  With the export flag and the import flag both set and no call
failing, main performs the export only and returns: models.Import is never
called.  With the import flag alone and models.Setup failing, main ends in
log.Fatal before the import. -/
theorem import_flag_without_import :
    (flagsBoth.import_fn ≠ "" ∧
      boots flagsBoth (envOf confTen false) = true ∧
      commands (main flagsBoth (envOf confTen false)).trace =
        [MainEvent.Export "" "arc.json"] ∧
      MainEvent.Import flagsBoth.import_fn ∉ (main flagsBoth (envOf confTen false)).trace) ∧
    (flagsImport.import_fn ≠ "" ∧
      commands (main flagsImport envNoSetup).trace = [] ∧
      MainEvent.Import flagsImport.import_fn ∉ (main flagsImport envNoSetup).trace ∧
      (main flagsImport envNoSetup).exit = Exit.fatal) := by
  refine ⟨⟨by decide, rfl, rfl, by decide⟩, ⟨by decide, rfl, by decide, rfl⟩⟩

/-- C9, amended: a run of main with the export flag or the import flag set
never starts the scheduler goroutine and registers no route, whatever the
configuration.  When the log file, the configuration file and models.Setup
do not fail, main performs exactly one command: the export when the export
flag is set, also when the import flag is set with it, and the import when
only the import flag is set; main returns when the command succeeds and
ends in log.Fatal when it fails.  When one of the steps before fails, main
ends in log.Fatal and performs neither command. -/
theorem command_starts_no_scheduler (flags : Flags) (env : Env ε)
    (hflag : flags.export_flag = true ∨ flags.import_fn ≠ "") :
    schedulerStarts (main flags env).trace = 0 ∧
    (main flags env).routes = [] ∧
    (boots flags env = true → flags.export_flag = true →
      commands (main flags env).trace = [MainEvent.Export flags.store_id flags.output] ∧
      (env.Export flags.store_id flags.output = none →
        (main flags env).exit = Exit.returned) ∧
      (env.Export flags.store_id flags.output ≠ none →
        (main flags env).exit = Exit.fatal)) ∧
    (boots flags env = true → flags.export_flag = false →
      commands (main flags env).trace = [MainEvent.Import flags.import_fn] ∧
      (env.Import flags.import_fn = none → (main flags env).exit = Exit.returned) ∧
      (env.Import flags.import_fn ≠ none → (main flags env).exit = Exit.fatal)) ∧
    (boots flags env = false →
      commands (main flags env).trace = [] ∧ (main flags env).exit = Exit.fatal) := by
  refine ⟨((main_facts flags env).2.2.2 hflag).1, ((main_facts flags env).2.2.2 hflag).2,
    ?_, ?_, main_of_not_boots flags env⟩
  · intro hboot hexp
    obtain ⟨dbIsNew, hsetup⟩ := setup_of_boots flags env hboot
    rw [main_of_boots flags env hboot, start_export flags env _ _ dbIsNew hsetup hexp]
    cases env.Export flags.store_id flags.output with
    | some err =>
      simp only [fatal, commands_append, commands_bootTrace]
      simp [commands]
    | none =>
      simp only [returned, commands_append, commands_bootTrace]
      split_ifs <;> simp [commands]
  · intro hboot hexp
    have himp : flags.import_fn ≠ "" := by
      rcases hflag with h | h
      · rw [hexp] at h; cases h
      · exact h
    obtain ⟨dbIsNew, hsetup⟩ := setup_of_boots flags env hboot
    rw [main_of_boots flags env hboot, start_import flags env _ _ dbIsNew hsetup hexp himp]
    cases env.Import flags.import_fn with
    | some err =>
      simp only [fatal, commands_append, commands_bootTrace]
      simp [commands]
    | none =>
      simp only [returned, commands_append, commands_bootTrace]
      split_ifs <;> simp [commands]

/-- C9, amended, with the scheduler enabled in the configuration: an import
alone and an export alone are performed and main returns without a
scheduler; with both flags the export alone is performed; when models.Setup
fails neither is; a start without these flags starts the scheduler. -/
theorem command_starts_no_scheduler_witness :
    (schedulerStarts (main flagsImport (envOf confTen false)).trace = 0 ∧
      commands (main flagsImport (envOf confTen false)).trace =
        [MainEvent.Import "backup.json"] ∧
      (main flagsImport (envOf confTen false)).exit = Exit.returned) ∧
    (schedulerStarts (main flagsExport (envOf confTen false)).trace = 0 ∧
      commands (main flagsExport (envOf confTen false)).trace =
        [MainEvent.Export "" "arc.json"] ∧
      (main flagsExport (envOf confTen false)).exit = Exit.returned) ∧
    (schedulerStarts (main flagsBoth (envOf confTen false)).trace = 0 ∧
      commands (main flagsBoth (envOf confTen false)).trace =
        [MainEvent.Export "" "arc.json"]) ∧
    (schedulerStarts (main flagsImport envNoSetup).trace = 0 ∧
      commands (main flagsImport envNoSetup).trace = [] ∧
      (main flagsImport envNoSetup).exit = Exit.fatal) ∧
    schedulerStarts (main Flags.defaults (envOf confTen false)).trace = 1 := by
  have hi := command_starts_no_scheduler flagsImport (envOf confTen false)
    (Or.inr (by decide))
  have he := command_starts_no_scheduler flagsExport (envOf confTen false) (Or.inl rfl)
  have hb := command_starts_no_scheduler flagsBoth (envOf confTen false) (Or.inl rfl)
  have hf := command_starts_no_scheduler flagsImport envNoSetup (Or.inr (by decide))
  exact ⟨⟨hi.1, (hi.2.2.2.1 rfl rfl).1, (hi.2.2.2.1 rfl rfl).2.1 rfl⟩,
    ⟨he.1, (he.2.2.1 rfl rfl).1, (he.2.2.1 rfl rfl).2.1 rfl⟩,
    ⟨hb.1, (hb.2.2.1 rfl rfl).1⟩,
    ⟨hf.1, (hf.2.2.2.2 rfl).1, (hf.2.2.2.2 rfl).2⟩, rfl⟩

/-- C10: when authentication is not disabled, every route main registers is
either POST /auth, with no AuthHandler in its chain, or a route under /api
whose chain is the static middleware, then AuthHandler, then its controller;
on a Denied decision the chain of such a route runs no controller. -/
theorem api_routes_behind_auth (flags : Flags) (env : Env ε) (hauth : flags.no_auth = false) :
    ∀ route ∈ (main flags env).routes,
      (route.Method = "POST" ∧ route.Path = "/auth" ∧
        ∃ url path index, route.Handlers =
          [Handler.ServeStatic url path index, Handler.controller Controller.Auth]) ∨
      (∃ rel url path index c, route.Path = "/api" ++ rel ∧
        route.Handlers =
          [Handler.ServeStatic url path index, Handler.AuthHandler, Handler.controller c] ∧
        ∀ served c2, Handler.controller c2 ∉
          runChain Decision.Denied served route.Handlers) := by
  intro route hroute
  rcases (main_facts flags env).2.2.1 with h | ⟨webapp, h⟩
  · rw [h] at hroute
    cases hroute
  · rw [h, register_routes flags _ hauth] at hroute
    simp only [List.mem_cons, List.mem_singleton, List.not_mem_nil, or_false] at hroute
    rcases hroute with h | h | h | h | h | h | h | h | h | h | h | h | h | h
    · left
      rw [h]
      exact ⟨rfl, rfl, _, _, _, rfl⟩
    · right
      rw [h]
      exact ⟨"/manifest", _, _, _, _, of_decide_eq_true rfl, rfl,
        fun served c2 => denied_runs_no_controller _ _ _ _ c2 served⟩
    · right
      rw [h]
      exact ⟨"/config", _, _, _, _, of_decide_eq_true rfl, rfl,
        fun served c2 => denied_runs_no_controller _ _ _ _ c2 served⟩
    · right
      rw [h]
      exact ⟨"/stores", _, _, _, _, of_decide_eq_true rfl, rfl,
        fun served c2 => denied_runs_no_controller _ _ _ _ c2 served⟩
    · right
      rw [h]
      exact ⟨"/stores", _, _, _, _, of_decide_eq_true rfl, rfl,
        fun served c2 => denied_runs_no_controller _ _ _ _ c2 served⟩
    · right
      rw [h]
      exact ⟨"/store/:id", _, _, _, _, of_decide_eq_true rfl, rfl,
        fun served c2 => denied_runs_no_controller _ _ _ _ c2 served⟩
    · right
      rw [h]
      exact ⟨"/store/:id", _, _, _, _, of_decide_eq_true rfl, rfl,
        fun served c2 => denied_runs_no_controller _ _ _ _ c2 served⟩
    · right
      rw [h]
      exact ⟨"/store/:id", _, _, _, _, of_decide_eq_true rfl, rfl,
        fun served c2 => denied_runs_no_controller _ _ _ _ c2 served⟩
    · right
      rw [h]
      exact ⟨"/store/:id/records", _, _, _, _, of_decide_eq_true rfl, rfl,
        fun served c2 => denied_runs_no_controller _ _ _ _ c2 served⟩
    · right
      rw [h]
      exact ⟨"/store/:id/records", _, _, _, _, of_decide_eq_true rfl, rfl,
        fun served c2 => denied_runs_no_controller _ _ _ _ c2 served⟩
    · right
      rw [h]
      exact ⟨"/store/:id/record/:r_id", _, _, _, _, of_decide_eq_true rfl, rfl,
        fun served c2 => denied_runs_no_controller _ _ _ _ c2 served⟩
    · right
      rw [h]
      exact ⟨"/store/:id/record/:r_id/buffer", _, _, _, _, of_decide_eq_true rfl, rfl,
        fun served c2 => denied_runs_no_controller _ _ _ _ c2 served⟩
    · right
      rw [h]
      exact ⟨"/store/:id/record/:r_id", _, _, _, _, of_decide_eq_true rfl, rfl,
        fun served c2 => denied_runs_no_controller _ _ _ _ c2 served⟩
    · right
      rw [h]
      exact ⟨"/store/:id/record/:r_id", _, _, _, _, of_decide_eq_true rfl, rfl,
        fun served c2 => denied_runs_no_controller _ _ _ _ c2 served⟩

/-- C10, on a start without flags: fourteen routes are registered; the record
deletion route is among them, and on a Denied decision its chain stops at
AuthHandler, while an authenticated request reaches the controller. -/
theorem api_routes_behind_auth_witness :
    (main Flags.defaults (envOf confTen false)).routes.length = 14 ∧
    (⟨"DELETE", "/api/store/:id/record/:r_id",
      [Handler.ServeStatic "/" "webapp" "index.html", Handler.AuthHandler,
       Handler.controller Controller.DeleteRecord]⟩ : RouteInfo) ∈
      (main Flags.defaults (envOf confTen false)).routes ∧
    (∀ served c2, Handler.controller c2 ∉
      runChain Decision.Denied served
        [Handler.ServeStatic "/" "webapp" "index.html", Handler.AuthHandler,
         Handler.controller Controller.DeleteRecord]) ∧
    runChain Decision.Principal false
      [Handler.ServeStatic "/" "webapp" "index.html", Handler.AuthHandler,
       Handler.controller Controller.DeleteRecord] =
      [Handler.ServeStatic "/" "webapp" "index.html", Handler.AuthHandler,
       Handler.controller Controller.DeleteRecord] := by
  have hmem : (⟨"DELETE", "/api/store/:id/record/:r_id",
      [Handler.ServeStatic "/" "webapp" "index.html", Handler.AuthHandler,
       Handler.controller Controller.DeleteRecord]⟩ : RouteInfo) ∈
      (main Flags.defaults (envOf confTen false)).routes := by decide
  have h := api_routes_behind_auth Flags.defaults (envOf confTen false) rfl _ hmem
  refine ⟨rfl, hmem, ?_, rfl⟩
  rcases h with ⟨_, hpath, _⟩ | ⟨_, _, _, _, _, _, _, hdenied⟩
  · exact absurd hpath (by decide)
  · exact hdenied

end MainClaims

end Arcd
